import Mathlib

/-!
Shallow embedding of the kiosuku-coindesker polling script (src/index.js, with
src/unnamed/part_000 as an earlier variant of the same loop).

JavaScript strings are modelled as `List Char`, numbers carrying unix
timestamps and HTTP statuses as `Int`, and fields that may be absent from an
article record as `Option`.  Fallible network calls are passed in as explicit
`Except` values; the pseudo-random draw of `Math.random()` is passed in as an
explicit rational `r` with `0 ≤ r < 1`.
-/

/-- An article record as consumed by src/index.js: `GUID`, `CREATED_ON`
(epoch seconds), `TITLE`, `SUBTITLE`, `BODY`, `URL`; the last four may be
absent (JS `undefined`), which the code papers over with `|| ''`. -/
structure Article where
  GUID : List Char
  CREATED_ON : Int
  TITLE : Option (List Char)
  SUBTITLE : Option (List Char)
  BODY : Option (List Char)
  URL : Option (List Char)
deriving DecidableEq

/-- The sort order produced by the comparator
`(a, b) => b.CREATED_ON - a.CREATED_ON` on line 79 of src/index.js:
`a` may come before `b` exactly when `b.CREATED_ON ≤ a.CREATED_ON`. -/
def newerFirst (a b : Article) : Prop :=
  b.CREATED_ON ≤ a.CREATED_ON

instance : DecidableRel newerFirst :=
  fun a b => inferInstanceAs (Decidable (b.CREATED_ON ≤ a.CREATED_ON))

instance : IsTotal Article newerFirst :=
  ⟨fun a b => le_total b.CREATED_ON a.CREATED_ON⟩

instance : IsTrans Article newerFirst :=
  ⟨fun _ _ _ h h' => le_trans h' h⟩

/-- `articles.sort((a, b) => b.CREATED_ON - a.CREATED_ON)`: stable sort,
newest first (src/index.js line 78-79). -/
def sortNewestFirst (articles : List Article) : List Article :=
  articles.insertionSort newerFirst

/-- The body of the `forEach` on lines 80-85 of src/index.js, acting on the
pair (articles dispatched so far, current `lastTimestamp`).  Dispatching an
article appends it to the first component (the fire-and-forget
`sendWebhook(article).catch(...)` call) and immediately raises
`lastTimestamp` to `Math.max(lastTimestamp, article.CREATED_ON)`. -/
def dispatchStep (acc : List Article × Int) (article : Article) : List Article × Int :=
  if article.CREATED_ON > acc.2 then
    (acc.1 ++ [article], max acc.2 article.CREATED_ON)
  else
    acc

/-- `checkForNew` (src/index.js lines 74-93), success path: sort the fetched
articles newest first, then run the `forEach` body over them starting from
the watermark `lastTimestamp`.  Returns (dispatched articles in dispatch
order, final `lastTimestamp`). -/
def checkForNew (articles : List Article) (lastTimestamp : Int) : List Article × Int :=
  (sortNewestFirst articles).foldl dispatchStep ([], lastTimestamp)

/-- The `response` object attached to an axios error, as far as the code
inspects it: `e.response.status`. -/
structure ErrResponse where
  status : Int
deriving DecidableEq

/-- A thrown JS error as inspected by the catch block of `checkForNew`:
`e.response` may be absent, `e.message` is a string. -/
structure JsError where
  response : Option ErrResponse
  message : List Char
deriving DecidableEq

/-- The test `e.response && e.response.status === 429` on line 87 of
src/index.js. -/
def is429 (e : JsError) : Bool :=
  match e.response with
  | some r => r.status == 429
  | none => false

/-- Console output events emitted by the catch block of `checkForNew`:
the rate-limit warning of line 88 and the generic error log of line 90. -/
inductive LogEvent where
  | rateLimitWarn
  | errorChecking (msg : List Char)
deriving DecidableEq

/-- Observable outcome of one `checkForNew` cycle: the articles dispatched to
the webhook, the final watermark, and the catch-block log output. -/
structure CycleResult where
  dispatched : List Article
  lastTimestamp : Int
  logs : List LogEvent
deriving DecidableEq

/-- One full `checkForNew` cycle (src/index.js lines 74-93), with the outcome
of the `fetchLatest()` call passed in explicitly: on success the try body
runs; on a throw the catch block logs (429 warning vs. generic error) and
leaves the watermark untouched. -/
def runCycle (fetched : Except JsError (List Article)) (lastTimestamp : Int) : CycleResult :=
  match fetched with
  | Except.ok articles =>
    let out := checkForNew articles lastTimestamp
    ⟨out.1, out.2, []⟩
  | Except.error e =>
    ⟨[], lastTimestamp, [if is429 e then LogEvent.rateLimitWarn else LogEvent.errorChecking e.message]⟩

/-- `fetchLatest` (src/index.js lines 38-47), with the network outcome passed
in explicitly: the current key is read at the cursor, the cursor advances by
one modulo the pool size *before* the network call (so it advances on failed
calls too), and a successful response yields `res.data.Data || []` — the
`Data` field being absent/null collapses to the empty list.  Returns
(fetch result, key used, new cursor). -/
def fetchLatest (keys : List (List Char)) (keyIndex : Nat)
    (net : Except JsError (Option (List Article))) :
    Except JsError (List Article) × List Char × Nat :=
  let apiKey := keys.getD keyIndex []
  let nextIndex := (keyIndex + 1) % keys.length
  (Except.map (fun d => d.getD []) net, apiKey, nextIndex)

/-- Iterate `fetchLatest` over a list of per-call network outcomes, starting
from cursor `keyIndex`.  Returns the list of (key used, cursor at call time)
per call, and the final cursor. -/
def runFetches (keys : List (List Char)) (keyIndex : Nat) :
    List (Except JsError (Option (List Article))) → List (List Char × Nat) × Nat
  | [] => ([], keyIndex)
  | net :: rest =>
    let call := fetchLatest keys keyIndex net
    let next := runFetches keys call.2.2 rest
    ((call.2.1, keyIndex) :: next.1, next.2)

/-- The `text` local of `sendWebhook` (src/index.js lines 50-54):
`subtitle ? title + " — " + subtitle + ": " + body : title + " — " + body`,
with each field defaulted to the empty string when absent. -/
def sendWebhookText (article : Article) : List Char :=
  let title := article.TITLE.getD []
  let subtitle := article.SUBTITLE.getD []
  let body := article.BODY.getD []
  if subtitle ≠ [] then
    title ++ (" — ").toList ++ subtitle ++ (": ").toList ++ body
  else
    title ++ (" — ").toList ++ body

/-- The `truncatedText` local of `sendWebhook` (src/index.js lines 57-59):
texts longer than 1600 characters are cut to their first 1600 characters
with a single `…` appended. -/
def truncatedTextOf (text : List Char) : List Char :=
  if text.length > 1600 then text.take 1600 ++ ['…'] else text

/-- `makeRandomConversationId` (src/index.js lines 34-36) with the
`Math.random()` draw `r` passed in explicitly:
`Math.floor(r * (999999999 - 1000 + 1)) + 1000`. -/
def makeRandomConversationId (r : ℚ) : Int :=
  ⌊r * ((999999999 - 1000 + 1 : Int) : ℚ)⌋ + 1000

/-- The webhook payload built by `sendWebhook` (src/index.js lines 61-67).
The `timestamp` field (`new Date(article.CREATED_ON * 1000).toISOString()`)
is date formatting and is not modelled; the remaining fields are. -/
structure Payload where
  xId : List Char
  conversationId : List Char
  tweetId : List Char
  text : List Char
deriving DecidableEq

/-- Construction of the payload fields of `sendWebhook` (src/index.js lines
49-67), with the `Math.random()` draw `r` passed in explicitly;
`conversationId` is the template-string rendering of
`makeRandomConversationId()`. -/
def sendWebhookPayload (article : Article) (r : ℚ) : Payload :=
  ⟨("web article").toList,
   (toString (makeRandomConversationId r)).toList,
   article.URL.getD [],
   truncatedTextOf (sendWebhookText article)⟩

/-- Text composition modelled from the spec's words, for comparison with
`sendWebhookText`: "the title, then the subtitle joined with an
em-dash/colon separator only when a subtitle is present (when the subtitle
is absent the subtitle and its separator are omitted), then the body". -/
def specComposedText (article : Article) : List Char :=
  article.TITLE.getD [] ++ (" — ").toList ++
    (if article.SUBTITLE.getD [] ≠ [] then article.SUBTITLE.getD [] ++ (": ").toList else []) ++
    article.BODY.getD []

/-- The watermark established by the bootstrap IIFE when `SEND_ON_STARTUP`
is false (src/index.js lines 100-105): `lastTimestamp` starts at 0 and is
set to `Math.max(...initial.map(a => a.CREATED_ON))` only when the first
fetch returned a non-empty list. -/
def bootstrapWatermark : List Article → Int
  | [] => 0
  | a :: rest => (rest.map (fun x => x.CREATED_ON)).foldl max a.CREATED_ON

/-- The `SEND_ON_STARTUP = false` branch of the bootstrap IIFE: no article is
dispatched (the branch only calls `fetchLatest`, never `sendWebhook`), and
the watermark is established from the first fetch result. -/
def bootstrapNoSend (initial : List Article) : List Article × Int :=
  ([], bootstrapWatermark initial)

/-- Concrete article with id "a" and timestamp 100 (spec scenario). -/
def artA : Article :=
  ⟨['a'], 100, none, none, none, none⟩

/-- Concrete article with id "b" and timestamp 200 (spec scenario). -/
def artB : Article :=
  ⟨['b'], 200, none, none, none, none⟩

/-- Concrete article whose body alone is 1601 characters, so the composed
text exceeds the 1600-character truncation limit. -/
def longArticle : Article :=
  ⟨[], 0, none, none, some (List.replicate 1601 'x'), none⟩

/-- Concrete two-key pool for the rotation witness. -/
def keysTwo : List (List Char) :=
  [['k'], ['l']]

/-- Concrete list of three per-call network outcomes, the second of which is
a thrown error, for the rotation witness. -/
def netsThree : List (Except JsError (Option (List Article))) :=
  [Except.ok none, Except.error ⟨none, []⟩, Except.ok (some [])]

/-! ### Helper lemmas about the fold of the dispatch loop -/

lemma le_foldl_max : ∀ (l : List Int) (t : Int), t ≤ l.foldl max t := by
  intro l
  induction l with
  | nil => intro t; exact le_refl t
  | cons a l ih =>
    intro t
    exact le_trans (le_max_left t a) (ih (max t a))

lemma mem_le_foldl_max : ∀ (l : List Int) (t x : Int), x ∈ l → x ≤ l.foldl max t := by
  intro l
  induction l with
  | nil => intro t x hx; cases hx
  | cons a l ih =>
    intro t x hx
    rcases List.mem_cons.mp hx with h | h
    · subst h
      exact le_trans (le_max_right t x) (le_foldl_max l (max t x))
    · exact ih (max t a) x h

lemma foldl_max_attained : ∀ (l : List Int) (t : Int),
    l.foldl max t = t ∨ l.foldl max t ∈ l := by
  intro l
  induction l with
  | nil => intro t; exact Or.inl rfl
  | cons a l ih =>
    intro t
    rcases ih (max t a) with h | h
    · rcases max_choice t a with hm | hm
      · exact Or.inl (by rw [List.foldl_cons, h, hm])
      · refine Or.inr (List.mem_cons.mpr (Or.inl ?_))
        rw [List.foldl_cons, h, hm]
    · exact Or.inr (List.mem_cons.mpr (Or.inr h))

lemma dispatchStep_wm (acc : List Article × Int) (a : Article) :
    (dispatchStep acc a).2 = max acc.2 a.CREATED_ON := by
  unfold dispatchStep
  by_cases h : a.CREATED_ON > acc.2
  · rw [if_pos h]
  · rw [if_neg h, max_eq_left (not_lt.mp h)]

lemma foldl_dispatch_wm : ∀ (l : List Article) (d : List Article) (wm : Int),
    (l.foldl dispatchStep (d, wm)).2 = (l.map (fun a => a.CREATED_ON)).foldl max wm := by
  intro l
  induction l with
  | nil => intro d wm; rfl
  | cons a l ih =>
    intro d wm
    rw [List.foldl_cons, List.map_cons, List.foldl_cons]
    have h := dispatchStep_wm (d, wm) a
    rcases hs : dispatchStep (d, wm) a with ⟨d', wm'⟩
    rw [hs] at h
    simp only at h
    rw [ih d' wm', h]

lemma sorted_sortNewestFirst (l : List Article) : (sortNewestFirst l).Pairwise newerFirst :=
  List.sorted_insertionSort newerFirst l

lemma mem_sortNewestFirst (l : List Article) (x : Article) :
    x ∈ sortNewestFirst l ↔ x ∈ l :=
  (List.perm_insertionSort newerFirst l).mem_iff

lemma no_dispatch_of_le : ∀ (l : List Article) (d : List Article) (wm : Int),
    (∀ b ∈ l, b.CREATED_ON ≤ wm) → l.foldl dispatchStep (d, wm) = (d, wm) := by
  intro l
  induction l with
  | nil => intro d wm _; rfl
  | cons a l ih =>
    intro d wm hle
    have ha : ¬ a.CREATED_ON > wm := not_lt.mpr (hle a (List.mem_cons_self a l))
    rw [List.foldl_cons]
    have hstep : dispatchStep (d, wm) a = (d, wm) := by
      unfold dispatchStep; rw [if_neg ha]
    rw [hstep]
    exact ih d wm (fun b hb => hle b (List.mem_cons_of_mem a hb))

lemma foldl_dispatch_mem : ∀ (l : List Article), l.Pairwise newerFirst →
    ∀ (d : List Article) (wm : Int) (x : Article),
      x ∈ (l.foldl dispatchStep (d, wm)).1 →
      x ∈ d ∨ (wm < x.CREATED_ON ∧ ∀ b ∈ l, b.CREATED_ON ≤ x.CREATED_ON) := by
  intro l
  induction l with
  | nil => intro _ d wm x hx; exact Or.inl hx
  | cons a l ih =>
    intro hp d wm x hx
    rcases List.pairwise_cons.mp hp with ⟨ha, hl⟩
    by_cases h : a.CREATED_ON > wm
    · have hmax : max wm a.CREATED_ON = a.CREATED_ON := max_eq_right (le_of_lt h)
      have hstep : dispatchStep (d, wm) a = (d ++ [a], a.CREATED_ON) := by
        unfold dispatchStep; rw [if_pos h, hmax]
      rw [List.foldl_cons, hstep, no_dispatch_of_le l (d ++ [a]) a.CREATED_ON ha] at hx
      rcases List.mem_append.mp hx with hxd | hxa
      · exact Or.inl hxd
      · have hxa' : x = a := List.mem_singleton.mp hxa
        subst hxa'
        refine Or.inr ⟨h, ?_⟩
        intro b hb
        rcases List.mem_cons.mp hb with hb' | hb'
        · subst hb'; exact le_refl _
        · exact ha b hb'
    · have hstep : dispatchStep (d, wm) a = (d, wm) := by
        unfold dispatchStep; rw [if_neg h]
      rw [List.foldl_cons, hstep] at hx
      rcases ih hl d wm x hx with hxd | ⟨hwx, hall⟩
      · exact Or.inl hxd
      · refine Or.inr ⟨hwx, ?_⟩
        intro b hb
        rcases List.mem_cons.mp hb with hb' | hb'
        · subst hb'; exact le_trans (not_lt.mp h) (le_of_lt hwx)
        · exact hall b hb'

lemma foldl_dispatch_length : ∀ (l : List Article), l.Pairwise newerFirst →
    ∀ (d : List Article) (wm : Int),
      (l.foldl dispatchStep (d, wm)).1.length ≤ d.length + 1 := by
  intro l
  induction l with
  | nil => intro _ d wm; exact Nat.le_succ _
  | cons a l ih =>
    intro hp d wm
    rcases List.pairwise_cons.mp hp with ⟨ha, hl⟩
    by_cases h : a.CREATED_ON > wm
    · have hmax : max wm a.CREATED_ON = a.CREATED_ON := max_eq_right (le_of_lt h)
      have hstep : dispatchStep (d, wm) a = (d ++ [a], a.CREATED_ON) := by
        unfold dispatchStep; rw [if_pos h, hmax]
      rw [List.foldl_cons, hstep, no_dispatch_of_le l (d ++ [a]) a.CREATED_ON ha]
      simp [List.length_append]
    · have hstep : dispatchStep (d, wm) a = (d, wm) := by
        unfold dispatchStep; rw [if_neg h]
      rw [List.foldl_cons, hstep]
      exact ih hl d wm

/-! ### Claim theorems -/

/-- C1, counterexample: for the fetch [{id:"a", ts:100}, {id:"b", ts:200}]
with watermark 0, article "a" has timestamp strictly greater than the
starting watermark yet is *not* dispatched — `lastTimestamp` is mutated
inside the `forEach`, so after "b" (ts 200) is dispatched the check
`100 > 200` fails; only "b" is delivered (final watermark 200). -/
theorem checkForNew_not_all_new_delivered :
    (0 : Int) < artA.CREATED_ON ∧ artA ∉ (checkForNew [artA, artB] 0).1 ∧
      checkForNew [artA, artB] 0 = ([artB], 200) := by
  decide

/-- C1 (amended): since the list is processed newest-first and the watermark
is raised as soon as an article is dispatched, `checkForNew` dispatches at
most one article per cycle; every dispatched article has timestamp strictly
greater than the starting watermark and at least the timestamp of every
fetched article. -/
theorem checkForNew_dispatch_characterization (l : List Article) (W : Int) :
    (checkForNew l W).1.length ≤ 1 ∧
    ∀ a, a ∈ (checkForNew l W).1 →
      W < a.CREATED_ON ∧ ∀ b, b ∈ l → b.CREATED_ON ≤ a.CREATED_ON := by
  constructor
  · exact foldl_dispatch_length (sortNewestFirst l) (sorted_sortNewestFirst l) [] W
  · intro a ha
    rcases foldl_dispatch_mem (sortNewestFirst l) (sorted_sortNewestFirst l) [] W a ha with
      h | ⟨hW, hall⟩
    · cases h
    · exact ⟨hW, fun b hb => hall b ((mem_sortNewestFirst l b).mpr hb)⟩

/-- C1, witness: the amended characterization evaluated on the spec's
two-article scenario. -/
theorem checkForNew_dispatch_characterization_witness :
    (checkForNew [artA, artB] 0).1.length ≤ 1 ∧
    (0 : Int) < artB.CREATED_ON ∧ artA.CREATED_ON ≤ artB.CREATED_ON :=
  ⟨(checkForNew_dispatch_characterization [artA, artB] 0).1,
   ((checkForNew_dispatch_characterization [artA, artB] 0).2 artB (by decide)).1,
   ((checkForNew_dispatch_characterization [artA, artB] 0).2 artB (by decide)).2 artA
     (by decide)⟩

/-- C2: the watermark is monotonically non-decreasing — the watermark after
a `checkForNew` cycle is at least the watermark before it, and each single
`forEach` step never decreases it. -/
theorem lastTimestamp_monotone (l : List Article) (W : Int) :
    W ≤ (checkForNew l W).2 ∧ ∀ (acc : List Article × Int) (a : Article),
      acc.2 ≤ (dispatchStep acc a).2 := by
  constructor
  · have h : (checkForNew l W).2 =
        ((sortNewestFirst l).map (fun a => a.CREATED_ON)).foldl max W :=
      foldl_dispatch_wm (sortNewestFirst l) [] W
    rw [h]
    exact le_foldl_max _ W
  · intro acc a
    rw [dispatchStep_wm]
    exact le_max_left _ _

/-- C3: idempotence of detection — running `checkForNew` again on the same
fetched list, starting from the watermark the first run produced, dispatches
nothing and leaves the watermark unchanged; in particular re-fetching the
two scenario articles with the watermark already 200 delivers nothing. -/
theorem checkForNew_idempotent (l : List Article) (W : Int) :
    checkForNew l ((checkForNew l W).2) = ([], (checkForNew l W).2) ∧
      checkForNew [artA, artB] 200 = ([], 200) := by
  constructor
  · have h : (checkForNew l W).2 =
        ((sortNewestFirst l).map (fun a => a.CREATED_ON)).foldl max W :=
      foldl_dispatch_wm (sortNewestFirst l) [] W
    have hle : ∀ b ∈ sortNewestFirst l, b.CREATED_ON ≤ (checkForNew l W).2 := by
      intro b hb
      rw [h]
      exact mem_le_foldl_max _ W _ (List.mem_map_of_mem (fun a => a.CREATED_ON) hb)
    exact no_dispatch_of_le (sortNewestFirst l) [] ((checkForNew l W).2) hle
  · decide

/-- C4: when the fetch step throws, the cycle returns normally with no
dispatches and an unchanged watermark; the log is the rate-limit warning
exactly when the error carries an HTTP 429 response status, and the generic
error message otherwise — and the two log events are distinct. -/
theorem runCycle_fetch_error (e : JsError) (W : Int) :
    (runCycle (Except.error e) W).dispatched = [] ∧
    (runCycle (Except.error e) W).lastTimestamp = W ∧
    ((runCycle (Except.error e) W).logs = [LogEvent.rateLimitWarn] ↔ is429 e = true) ∧
    ((runCycle (Except.error e) W).logs = [LogEvent.errorChecking e.message] ↔ is429 e = false) ∧
    ∀ m, LogEvent.rateLimitWarn ≠ LogEvent.errorChecking m := by
  refine ⟨rfl, rfl, ?_, ?_, ?_⟩
  · cases hb : is429 e <;> simp [runCycle, hb]
  · cases hb : is429 e <;> simp [runCycle, hb]
  · intro m hc
    exact LogEvent.noConfusion hc

/-- C10: a successful fetch whose body lacks the `Data` list field yields the
empty article list rather than an error, indistinguishable from a fetch that
found no articles. -/
theorem fetchLatest_missing_data (keys : List (List Char)) (i : Nat) :
    (fetchLatest keys i (Except.ok none)).1 = Except.ok [] ∧
    fetchLatest keys i (Except.ok none) = fetchLatest keys i (Except.ok (some [])) :=
  ⟨rfl, rfl⟩

/-- C7: the composed webhook text is the title, then the subtitle joined with
the em-dash/colon separators only when a subtitle is present (absent
subtitle: the subtitle and its `": "` separator are omitted), then the body
— i.e. the code's composition agrees with the spec-modelled one. -/
theorem sendWebhook_text_composition (a : Article) :
    sendWebhookText a = specComposedText a := by
  unfold sendWebhookText specComposedText
  by_cases h : a.SUBTITLE.getD [] ≠ []
  · rw [if_pos h, if_pos h]
    simp [List.append_assoc]
  · rw [if_neg h, if_neg h]
    simp [List.append_assoc]

/-- C6: composed text longer than 1600 characters is delivered as exactly its
first 1600 characters plus the single `…` marker (total length 1601); text
of at most 1600 characters passes through unchanged. -/
theorem sendWebhook_truncation (a : Article) :
    (1600 < (sendWebhookText a).length →
      truncatedTextOf (sendWebhookText a) = (sendWebhookText a).take 1600 ++ ['…'] ∧
      (truncatedTextOf (sendWebhookText a)).length = 1601) ∧
    ((sendWebhookText a).length ≤ 1600 →
      truncatedTextOf (sendWebhookText a) = sendWebhookText a) := by
  constructor
  · intro h
    have ht : truncatedTextOf (sendWebhookText a) =
        (sendWebhookText a).take 1600 ++ ['…'] := by
      unfold truncatedTextOf
      rw [if_pos h]
    refine ⟨ht, ?_⟩
    rw [ht, List.length_append, List.length_take]
    simp only [List.length_singleton]
    omega
  · intro h
    unfold truncatedTextOf
    rw [if_neg (not_lt.mpr h)]

set_option maxRecDepth 16384 in
/-- C6, witness: the truncation branch evaluated on an article with a
1601-character body, and the pass-through branch on the small scenario
article. -/
theorem sendWebhook_truncation_witness :
    (truncatedTextOf (sendWebhookText longArticle) =
      (sendWebhookText longArticle).take 1600 ++ ['…'] ∧
      (truncatedTextOf (sendWebhookText longArticle)).length = 1601) ∧
    truncatedTextOf (sendWebhookText artA) = sendWebhookText artA :=
  ⟨(sendWebhook_truncation longArticle).1 (by decide),
   (sendWebhook_truncation artA).2 (by decide)⟩

/-- C9: the conversation identifier always lies in [1000, 999999999], and the
payload's `conversationId` field is exactly its string rendering. -/
theorem makeRandomConversationId_range (r : ℚ) (h0 : 0 ≤ r) (h1 : r < 1) :
    1000 ≤ makeRandomConversationId r ∧ makeRandomConversationId r ≤ 999999999 ∧
    ∀ a : Article, (sendWebhookPayload a r).conversationId =
      (toString (makeRandomConversationId r)).toList := by
  have hN : ((999999999 - 1000 + 1 : Int) : ℚ) = 999999000 := by norm_num
  have hfl : (0 : Int) ≤ ⌊r * ((999999999 - 1000 + 1 : Int) : ℚ)⌋ := by
    apply Int.floor_nonneg.mpr
    apply mul_nonneg h0
    rw [hN]
    norm_num
  have hfu : ⌊r * ((999999999 - 1000 + 1 : Int) : ℚ)⌋ < 999999000 := by
    apply Int.floor_lt.mpr
    rw [hN]
    calc r * 999999000 < 1 * 999999000 := by
          exact mul_lt_mul_of_pos_right h1 (by norm_num)
      _ = ((999999000 : Int) : ℚ) := by norm_num
  refine ⟨?_, ?_, fun a => rfl⟩
  · unfold makeRandomConversationId
    omega
  · unfold makeRandomConversationId
    omega

/-- C9, witness: the bounds and the payload field at the draw r = 0. -/
theorem makeRandomConversationId_range_witness :
    1000 ≤ makeRandomConversationId 0 ∧ makeRandomConversationId 0 ≤ 999999999 ∧
    (sendWebhookPayload artA 0).conversationId =
      (toString (makeRandomConversationId 0)).toList :=
  ⟨(makeRandomConversationId_range 0 (by norm_num) (by norm_num)).1,
   (makeRandomConversationId_range 0 (by norm_num) (by norm_num)).2.1,
   (makeRandomConversationId_range 0 (by norm_num) (by norm_num)).2.2 artA⟩

/-- C8: with the startup-send toggle disabled the bootstrap dispatches
nothing and only establishes the watermark: 0 for an empty first fetch, and
otherwise the maximum `CREATED_ON` of the fetched articles (an upper bound
that is attained); and from watermark 0 any article with positive timestamp
is dispatched by a later cycle. -/
theorem bootstrap_no_send_watermark :
    (∀ initial : List Article, (bootstrapNoSend initial).1 = []) ∧
    (∀ initial : List Article, ∀ a ∈ initial,
      a.CREATED_ON ≤ (bootstrapNoSend initial).2) ∧
    bootstrapNoSend [] = ([], 0) ∧
    (∀ initial : List Article, initial ≠ [] →
      (bootstrapNoSend initial).2 ∈ initial.map (fun a => a.CREATED_ON)) ∧
    (∀ a : Article, 0 < a.CREATED_ON → checkForNew [a] 0 = ([a], a.CREATED_ON)) := by
  refine ⟨fun _ => rfl, ?_, rfl, ?_, ?_⟩
  · intro initial a ha
    cases initial with
    | nil => cases ha
    | cons x rest =>
      rcases List.mem_cons.mp ha with h | h
      · subst h
        exact le_foldl_max _ _
      · exact mem_le_foldl_max _ _ _ (List.mem_map_of_mem (fun a => a.CREATED_ON) h)
  · intro initial hne
    cases initial with
    | nil => exact absurd rfl hne
    | cons x rest =>
      rcases foldl_max_attained (rest.map (fun a => a.CREATED_ON)) x.CREATED_ON with h | h
      · rw [List.map_cons]
        exact List.mem_cons.mpr (Or.inl h)
      · rw [List.map_cons]
        exact List.mem_cons.mpr (Or.inr h)
  · intro a ha
    have hs : sortNewestFirst [a] = [a] := rfl
    unfold checkForNew
    rw [hs, List.foldl_cons]
    have hstep : dispatchStep ([], 0) a = ([a], a.CREATED_ON) := by
      unfold dispatchStep
      rw [if_pos ha]
      rw [max_eq_right (le_of_lt ha)]
      rfl
    rw [hstep]
    rfl

/-- C8, witness: the bound, attainment and later-cycle dispatch at concrete
inputs. -/
theorem bootstrap_no_send_watermark_witness :
    artB.CREATED_ON ≤ (bootstrapNoSend [artA, artB]).2 ∧
    (bootstrapNoSend [artA, artB]).2 ∈ [artA, artB].map (fun a => a.CREATED_ON) ∧
    checkForNew [artA] 0 = ([artA], artA.CREATED_ON) :=
  ⟨bootstrap_no_send_watermark.2.1 [artA, artB] artB (by decide),
   bootstrap_no_send_watermark.2.2.2.1 [artA, artB] (by decide),
   bootstrap_no_send_watermark.2.2.2.2 artA (by decide)⟩

/-! ### Helper lemmas for the key-rotation count -/

lemma countP_range_eq (r : Nat) : ∀ n : Nat,
    (List.range n).countP (fun k => k == r) = if r < n then 1 else 0 := by
  intro n
  induction n with
  | zero => simp
  | succ n ih =>
    rw [List.range_succ, List.countP_append, ih]
    simp only [List.countP_cons, List.countP_nil, beq_iff_eq]
    by_cases h : n = r
    · subst h
      rw [if_neg (lt_irrefl n), if_pos rfl, if_pos (Nat.lt_succ_self n)]
    · rw [if_neg h]
      by_cases hr : r < n
      · rw [if_pos hr, if_pos (by omega)]
      · rw [if_neg hr, if_neg (by omega)]

lemma countP_range_mod_aux : ∀ (n K P r : Nat), K ≤ n → 0 < P → r < P →
    (List.range K).countP (fun k => k % P == r) =
      K / P + if r < K % P then 1 else 0 := by
  intro n
  induction n with
  | zero =>
    intro K P r hK hP hr
    have hK0 : K = 0 := Nat.le_zero.mp hK
    subst hK0
    simp
  | succ n ih =>
    intro K P r hK hP hr
    by_cases hKP : K < P
    · have hcongr : (List.range K).countP (fun k => k % P == r) =
          (List.range K).countP (fun k => k == r) := by
        apply List.countP_congr
        intro k hk
        have hkK : k < K := List.mem_range.mp hk
        simp only [beq_iff_eq]
        rw [Nat.mod_eq_of_lt (lt_trans hkK hKP)]
      rw [hcongr, countP_range_eq, Nat.div_eq_of_lt hKP, Nat.mod_eq_of_lt hKP]
      exact (Nat.zero_add _).symm
    · push_neg at hKP
      have hsplit : K = P + (K - P) := by omega
      have hfirst : (List.range P).countP (fun k => k % P == r) = 1 := by
        have hcongr : (List.range P).countP (fun k => k % P == r) =
            (List.range P).countP (fun k => k == r) := by
          apply List.countP_congr
          intro k hk
          simp only [beq_iff_eq]
          rw [Nat.mod_eq_of_lt (List.mem_range.mp hk)]
        rw [hcongr, countP_range_eq, if_pos hr]
      have hL : (List.range K).countP (fun k => k % P == r) =
          1 + (List.range (K - P)).countP (fun k => k % P == r) := by
        conv_lhs => rw [hsplit]
        rw [List.range_add, List.countP_append, hfirst, List.countP_map]
        have hcomp : ((fun k => k % P == r) ∘ fun x => P + x) =
            (fun k => k % P == r) := by
          funext k
          simp only [Function.comp]
          rw [Nat.add_mod_left]
        rw [hcomp]
      rw [hL, ih (K - P) P r (by omega) hP hr]
      have hd : K / P = (K - P) / P + 1 := Nat.div_eq_sub_div hP hKP
      have hm : K % P = (K - P) % P := Nat.mod_eq_sub_mod hKP
      rw [hd, hm]
      by_cases hlt : r < (K - P) % P
      · rw [if_pos hlt]
        omega
      · rw [if_neg hlt]
        omega

lemma countP_range_mod (K P r : Nat) (hP : 0 < P) (hr : r < P) :
    (List.range K).countP (fun k => k % P == r) =
      K / P + if r < K % P then 1 else 0 :=
  countP_range_mod_aux K K P r (le_refl K) hP hr

lemma ceil_div_succ (K P : Nat) (hP : 0 < P) (hs : K % P ≠ 0) :
    (K + P - 1) / P = K / P + 1 := by
  have hqs : P * (K / P) + K % P = K := Nat.div_add_mod K P
  have hsP : K % P < P := Nat.mod_lt _ hP
  have hmul : P * (K / P + 1) = P * (K / P) + P := by ring
  have hsplit : K + P - 1 = P * (K / P + 1) + (K % P - 1) := by omega
  rw [hsplit, Nat.mul_add_div hP, Nat.div_eq_of_lt (by omega : K % P - 1 < P)]

lemma mod_shift_iff (P i0 j : Nat) (hP : 0 < P) (hi : i0 < P) (hj : j < P) (k : Nat) :
    (i0 + k) % P = j ↔ k % P = (j + P - i0) % P := by
  have hr : (j + P - i0) % P < P := Nat.mod_lt _ hP
  have hkey : (i0 + (j + P - i0) % P) % P = j := by
    have h1 : (i0 + (j + P - i0) % P) % P = (i0 + (j + P - i0)) % P :=
      Nat.ModEq.add_left i0 (Nat.mod_modEq _ _)
    have h2 : i0 + (j + P - i0) = j + P := by omega
    rw [h1, h2, Nat.add_mod_right, Nat.mod_eq_of_lt hj]
  constructor
  · intro h
    have hme : i0 + k ≡ i0 + (j + P - i0) % P [MOD P] := by
      show (i0 + k) % P = (i0 + (j + P - i0) % P) % P
      rw [h, hkey]
    have hk : k ≡ (j + P - i0) % P [MOD P] := Nat.ModEq.add_left_cancel' i0 hme
    have hk' : k % P = ((j + P - i0) % P) % P := hk
    rw [hk', Nat.mod_eq_of_lt hr]
  · intro h
    have hme : k ≡ (j + P - i0) % P [MOD P] := by
      show k % P = ((j + P - i0) % P) % P
      rw [h, Nat.mod_eq_of_lt hr]
    have hme2 : i0 + k ≡ i0 + (j + P - i0) % P [MOD P] := Nat.ModEq.add_left i0 hme
    have hme2' : (i0 + k) % P = (i0 + (j + P - i0) % P) % P := hme2
    rw [hme2', hkey]

lemma runFetches_closed (keys : List (List Char)) (hP : 0 < keys.length) :
    ∀ (nets : List (Except JsError (Option (List Article)))) (i0 : Nat),
      i0 < keys.length →
      runFetches keys i0 nets =
        ((List.range nets.length).map
          (fun k => (keys.getD ((i0 + k) % keys.length) [], (i0 + k) % keys.length)),
         (i0 + nets.length) % keys.length) := by
  intro nets
  induction nets with
  | nil =>
    intro i0 hi
    simp [runFetches, Nat.mod_eq_of_lt hi]
  | cons net rest ih =>
    intro i0 hi
    have hi' : (i0 + 1) % keys.length < keys.length := Nat.mod_lt _ hP
    simp only [runFetches, fetchLatest]
    rw [ih ((i0 + 1) % keys.length) hi']
    have hcur : ((i0 + 1) % keys.length + rest.length) % keys.length =
        (i0 + (rest.length + 1)) % keys.length := by
      rw [Nat.mod_add_mod]
      have : i0 + 1 + rest.length = i0 + (rest.length + 1) := by omega
      rw [this]
    have hmap : (List.range rest.length).map
          (fun k => (keys.getD (((i0 + 1) % keys.length + k) % keys.length) [],
                     ((i0 + 1) % keys.length + k) % keys.length)) =
        (List.range rest.length).map
          ((fun k => (keys.getD ((i0 + k) % keys.length) [], (i0 + k) % keys.length)) ∘
            Nat.succ) := by
      apply List.map_congr_left
      intro k _
      simp only [Function.comp]
      rw [Nat.mod_add_mod]
      have : i0 + 1 + k = i0 + Nat.succ k := by omega
      rw [this]
    rw [List.length_cons, List.range_succ_eq_map, List.map_cons, hcur, hmap, ← List.map_map]
    have hzero : (i0 + 0) % keys.length = i0 := by
      rw [Nat.add_zero, Nat.mod_eq_of_lt hi]
    rw [hzero]

/-- C5: credential rotation — with a pool of P keys, a starting cursor in
[0, P) and K consecutive `fetchLatest` calls with arbitrary per-call network
outcomes (failures included), the cursor advances by one per call wrapping
modulo P, always stays in [0, P), the key used at each call is the pool
entry at the cursor, and each key position j < P is selected either
⌊K/P⌋ or ⌈K/P⌉ times. -/
theorem fetchLatest_rotation (keys : List (List Char)) (i0 : Nat)
    (nets : List (Except JsError (Option (List Article)))) (j : Nat)
    (hP : 0 < keys.length) (hi : i0 < keys.length) (hj : j < keys.length) :
    (runFetches keys i0 nets).2 = (i0 + nets.length) % keys.length ∧
    (runFetches keys i0 nets).2 < keys.length ∧
    (runFetches keys i0 nets).1.map Prod.snd =
      (List.range nets.length).map (fun k => (i0 + k) % keys.length) ∧
    (∀ c ∈ (runFetches keys i0 nets).1,
      c.2 < keys.length ∧ c.1 = keys.getD c.2 []) ∧
    (((runFetches keys i0 nets).1.map Prod.snd).count j =
        nets.length / keys.length ∨
     ((runFetches keys i0 nets).1.map Prod.snd).count j =
        (nets.length + keys.length - 1) / keys.length) := by
  have hclosed := runFetches_closed keys hP nets i0 hi
  have hsnd : (runFetches keys i0 nets).1.map Prod.snd =
      (List.range nets.length).map (fun k => (i0 + k) % keys.length) := by
    rw [hclosed, List.map_map]
    rfl
  refine ⟨by rw [hclosed], ?_, hsnd, ?_, ?_⟩
  · rw [hclosed]
    exact Nat.mod_lt _ hP
  · intro c hc
    rw [hclosed] at hc
    rcases List.mem_map.mp hc with ⟨k, _, hk⟩
    rw [← hk]
    exact ⟨Nat.mod_lt _ hP, rfl⟩
  · have hrlt : (j + keys.length - i0) % keys.length < keys.length := Nat.mod_lt _ hP
    have hcount : ((runFetches keys i0 nets).1.map Prod.snd).count j =
        (List.range nets.length).countP
          (fun k => k % keys.length == (j + keys.length - i0) % keys.length) := by
      rw [hsnd, List.count_eq_countP, List.countP_map]
      apply List.countP_congr
      intro k _
      simp only [Function.comp, beq_iff_eq]
      exact mod_shift_iff keys.length i0 j hP hi hj k
    rw [hcount, countP_range_mod _ _ _ hP hrlt]
    by_cases hlt : (j + keys.length - i0) % keys.length < nets.length % keys.length
    · right
      have hne : nets.length % keys.length ≠ 0 := by omega
      rw [ceil_div_succ _ _ hP hne, if_pos hlt]
    · left
      rw [if_neg hlt]
      omega

/-- C5, witness: a two-key pool, starting cursor 1, three calls of which the
second throws — the final cursor and the usage count of key position 0. -/
theorem fetchLatest_rotation_witness :
    (runFetches keysTwo 1 netsThree).2 = (1 + netsThree.length) % keysTwo.length ∧
    (((runFetches keysTwo 1 netsThree).1.map Prod.snd).count 0 =
        netsThree.length / keysTwo.length ∨
     ((runFetches keysTwo 1 netsThree).1.map Prod.snd).count 0 =
        (netsThree.length + keysTwo.length - 1) / keysTwo.length) :=
  ⟨(fetchLatest_rotation keysTwo 1 netsThree 0 (by decide) (by decide) (by decide)).1,
   (fetchLatest_rotation keysTwo 1 netsThree 0 (by decide) (by decide) (by decide)).2.2.2.2⟩
